import Mathlib

/-!
Shallow embedding of the deduplicated publish pipeline of `src/main.py`
(job scraping / Telegram posting bot).  Network effects are made explicit:
every remote interaction (Gist GET/PATCH, page fetch, Telegram send) is an
input to the corresponding pure function, and state (the remote ledger
document, the in-process cache) is passed explicitly.
-/

namespace JobBot

abbrev Url := String

/-! ### Ledger view (parsed content of `posted_jobs.json`) -/

/-- Ledger view as used inside a cycle: identity → ISO timestamp string
(python dict, modelled as an association list in insertion order). -/
abbrev Ledger := List (Url × String)

/-- Keys of the ledger dict (`posted_jobs.keys()`). -/
def ledgerKeys (l : Ledger) : List Url := l.map Prod.fst

/-- Python `url in posted_jobs` (dict key membership). -/
def memLedger (u : Url) (l : Ledger) : Bool := decide (u ∈ ledgerKeys l)

/-! ### URL normalization and listing-page link extraction -/

/-- Python `link.rstrip('/').split('?')[0]` (lines 494, 497): strip trailing
slashes, then keep the characters before the first `?`. -/
def normalizeUrl (u : Url) : Url :=
  ⟨((u.data.reverse.dropWhile (fun c => c = '/')).reverse).takeWhile (fun c => c ≠ '?')⟩

/-- Helper for python substring tests: does `cs` start with `pat`? -/
def startsWithChars : List Char → List Char → Bool
  | [], _ => true
  | _ :: _, [] => false
  | a :: as, b :: bs => a == b && startsWithChars as bs

/-- Helper: does `pat` occur somewhere in `cs`? -/
def containsChars (pat : List Char) : List Char → Bool
  | [] => pat.isEmpty
  | c :: rest => startsWithChars pat (c :: rest) || containsChars pat rest

/-- Python `pat in s` (substring test). -/
def strContains (s pat : String) : Bool := containsChars pat.data s.data

/-- After a `/`, at least 4 digits immediately followed by another `/`
(continuation of the regex `/\d{4,}/` after the opening slash). -/
def digitsThenSlash : List Char → Nat → Bool
  | [], _ => false
  | c :: rest, n =>
    if c.isDigit then digitsThenSlash rest (n + 1)
    else c = '/' && n ≥ 4

/-- Python `re.search(r'/\d{4,}/', href)` (line 481). -/
def hasSlashDigits4Slash : List Char → Bool
  | [] => false
  | c :: rest => (c = '/' && digitsThenSlash rest 0) || hasSlashDigits4Slash rest

/-- Line 481: `"/job/" in href or "job-detail" in href or re.search(r'/\d{4,}/', href)`. -/
def isJobHref (h : String) : Bool :=
  strContains h "/job/" || strContains h "job-detail" || hasSlashDigits4Slash h.data

def BASE_URL : String := "https://geezjobs.com"

/-- Line 482: `href if href.startswith("http") else BASE_URL + href`. -/
def toFullUrl (h : String) : Url :=
  if startsWithChars "http".data h.data then h else BASE_URL ++ h

/-- Lines 483-485: append each full url unless it is already present
(exact-string within-cycle deduplication). -/
def dedup (l : List Url) : List Url :=
  l.foldl (fun acc u => if u ∈ acc then acc else acc ++ [u]) []

/-- Lines 478-486: candidate links from the listing page, given the raw
`href` attributes of its anchor tags in document order. -/
def extractJobLinks (hrefs : List String) : List Url :=
  dedup ((hrefs.filter isJobHref).map toFullUrl)

/-- Lines 489-503: filter the first 20 candidates against the cycle-start
ledger view: drop a link when its normalized form matches a normalized
ledger key, or when the raw link is itself a ledger key. -/
def newLinks (posted : Ledger) (jobLinks : List Url) : List Url :=
  let postedNorm := (ledgerKeys posted).map normalizeUrl
  (jobLinks.take 20).filter
    (fun link => decide (normalizeUrl link ∉ postedNorm) && !(memLedger link posted))

/-- Line 515: the links actually submitted to the thread pool
(`new_links[:12]`). -/
def submittedLinks (posted : Ledger) (hrefs : List String) : List Url :=
  (newLinks posted (extractJobLinks hrefs)).take 12

/-! ### Extracted record and the final per-job re-check -/

/-- Record returned by `scrape_job_detail` (lines 442-452).  The cosmetic
fields `id` (derived from the url) and `scraped_at` are omitted; no claim
depends on them. -/
structure JobRecord where
  link : Url
  title : String
  jtype : String
  location : String
  deadline : String
  deadlineRaw : String
  sections : List (String × String)
deriving DecidableEq, Repr

/-- Lines 204-216, `is_job_posted`: membership in the cached view, else in a
freshly re-fetched view.  `cache` is the cycle-start snapshot (set by the
forced load at line 468), `fresh` the remote view at re-check time. -/
def isJobPosted (cache fresh : Ledger) (u : Url) : Bool :=
  memLedger u cache || memLedger u fresh

/-- Lines 517-529: drain the pool in completion order; keep a result when the
worker returned a record (`details link = some jd`) and the final
`is_job_posted` re-check fails. -/
def collectResults (details : Url → Option JobRecord) (cache fresh : Ledger) :
    List Url → List JobRecord
  | [] => []
  | link :: rest =>
    match details link with
    | some jd =>
        if isJobPosted cache fresh link then collectResults details cache fresh rest
        else jd :: collectResults details cache fresh rest
    | none => collectResults details cache fresh rest

/-- Lines 512-531, the pool/collect phase of `scrape_new_jobs`: `posted` is
the cycle-start ledger view, `fresh` the remote view seen by re-checks,
`details` the per-url extraction outcome, and `completed` the order in which
`as_completed` yielded the submitted futures. -/
def scrapeNewJobs (posted fresh : Ledger) (details : Url → Option JobRecord)
    (completed : List Url) : List JobRecord :=
  collectResults details posted fresh completed

/-! ### Posting loop (`post_job`, `job_posting_cycle`) -/

/-- Explicit outcomes of the remote calls made while posting one batch:
whether the Telegram send succeeds for a given link, and whether the Gist
PATCH committing a given link succeeds (attempt 0, retry 1; lines 193-198). -/
structure PostEnv where
  sendOk : Url → Bool
  saveOk : Url → Nat → Bool
  nowIso : String

/-- Lines 179-202, `save_posted_job`: reload fresh, skip if the url is
already present, otherwise insert with the current timestamp and save with
one retry.  Returns (success, was_new, resulting remote ledger view).
In-cycle loads are modelled as returning the current remote view unpruned:
every commit carries a current timestamp, so the retention window never
drops an entry relevant to the posting-loop claims. -/
def savePostedJob (env : PostEnv) (ledger : Ledger) (u : Url) : Bool × Bool × Ledger :=
  if memLedger u ledger then (true, false, ledger)
  else
    let updated := ledger ++ [(u, env.nowIso)]
    if env.saveOk u 0 then (true, true, updated)
    else if env.saveOk u 1 then (true, true, updated)
    else (false, true, ledger)

/-- Lines 541-645, `post_job`: attempt the Telegram send; on failure return
False with no ledger change; on confirmed send commit via `save_posted_job`
and return `save_success or was_new` (line 637). -/
def postJob (env : PostEnv) (ledger : Ledger) (job : JobRecord) : Bool × Ledger :=
  if env.sendOk job.link then
    let r := savePostedJob env ledger job.link
    (r.1 || r.2.1, r.2.2)
  else (false, ledger)

/-- Lines 676-689: post each job in sequence, recording per-job
(link, success) outcomes; one failure never halts the remaining jobs. -/
def runPostingLoop (env : PostEnv) (ledger : Ledger) :
    List JobRecord → Ledger × List (Url × Bool)
  | [] => (ledger, [])
  | job :: rest =>
    let r := postJob env ledger job
    let rec2 := runPostingLoop env r.2 rest
    (rec2.1, (job.link, r.1) :: rec2.2)

/-- Lines 673-703: the posted/failed counters of `job_posting_cycle` and the
final remote ledger view. -/
def jobPostingCycle (env : PostEnv) (ledger : Ledger) (jobs : List JobRecord) :
    Nat × Nat × Ledger :=
  let r := runPostingLoop env ledger jobs
  ((r.2.filter (fun x => x.2)).length, (r.2.filter (fun x => !x.2)).length, r.1)

/-! ### Ledger load with 7-day pruning (`load_posted_jobs`, lines 47-118) -/

/-- Timestamp value of a stored ledger entry, classified exactly as the
parsing code of lines 83-100 does: a string parsing (by either accepted
format) to an absolute time `t`, a string failing both formats (the inner
`ValueError` is caught at line 98 and the entry is kept), or a non-string
value (treated at line 92 as `now - 8 days`, hence always pruned). -/
inductive TsVal where
  | parsed (t : Int)
  | unparseable
  | nonString
deriving DecidableEq, Repr

def secondsPerDay : Int := 86400

/-- Line 94: keep an entry iff `current_time - job_time < timedelta(days=7)`. -/
def keepEntry (now : Int) : TsVal → Bool
  | .parsed t => decide (now - t < 7 * secondsPerDay)
  | .unparseable => true
  | .nonString => false

/-- Stored ledger document (the parsed JSON object of `posted_jobs.json`). -/
abbrev LedgerDoc := List (Url × TsVal)

/-- Lines 78-101: the view returned by a successful load drops entries older
than 7 days. -/
def pruneView (now : Int) (doc : LedgerDoc) : LedgerDoc :=
  doc.filter (fun p => keepEntry now p.2)

/-- Outcome of the Gist GET made by `load_posted_jobs`: 200 with a parseable
`posted_jobs.json` of content `doc`; 200 with the file missing or empty
(lines 109-111); a non-200 status (line 112); or a raised error, covering
network errors and JSON parse errors (line 116). -/
inductive GistFetch where
  | okDoc (doc : LedgerDoc)
  | okEmpty
  | badStatus (code : Nat)
  | raised
deriving Repr

/-- Result of a load: the returned view and the module-level cache
`_posted_jobs_cache` afterwards. -/
structure LoadResult where
  view : LedgerDoc
  cache : Option LedgerDoc
deriving DecidableEq, Repr

/-- Lines 47-118, `load_posted_jobs(force_refresh=True)`: on success prune
and cache; on an empty Gist reset to empty; on a failed fetch return the
last successfully loaded snapshot if one exists, else an empty map, leaving
the cache unchanged.  The function is total: no path raises. -/
def loadPostedJobs (now : Int) (cache : Option LedgerDoc) (fetch : GistFetch) :
    LoadResult :=
  match fetch with
  | .okDoc doc =>
    let v := pruneView now doc
    ⟨v, some v⟩
  | .okEmpty => ⟨[], some []⟩
  | .badStatus _ => ⟨cache.getD [], cache⟩
  | .raised => ⟨cache.getD [], cache⟩

/-- Load against an available remote document: the load issues only a GET
(lines 61-68), so the second component — the stored document after the
load — is the unchanged input document. -/
def loadFromStore (now : Int) (cache : Option LedgerDoc) (store : LedgerDoc) :
    LoadResult × LedgerDoc :=
  (loadPostedJobs now cache (GistFetch.okDoc store), store)

/-! ### Saving the ledger (`save_posted_jobs`, lines 120-177) -/

/-- Gist document: filename → content. -/
abbrev GistFiles := List (String × String)

/-- Content stored under filename `f`, if any (dict lookup; filenames are
unique within a Gist document). -/
def lookupFile (fs : GistFiles) (f : String) : Option String :=
  match fs with
  | [] => none
  | p :: rest => if p.1 = f then some p.2 else lookupFile rest f

/-- Gist PATCH semantics (external API, spec section 6): a file named in the
payload takes the payload content (created if absent); a file not named in
the payload keeps its previous content.  The result is represented with
payload entries first; `lookupFile` reads the merged map. -/
def gistPatch (doc payload : GistFiles) : GistFiles :=
  payload ++ doc.filter (fun p => (lookupFile payload p.1).isNone)

/-- Outcomes of the remote calls made by `save_posted_jobs`: whether the
required tokens are configured (line 124), whether the pre-save GET returns
200 (line 139), and whether the PATCH returns 200 (line 165). -/
structure SaveEnv where
  tokensSet : Bool
  getOk : Bool
  patchOk : Bool
deriving Repr

/-- Lines 150-154: stable descending sort of the entries by the string form
of their timestamp (`sorted(..., key=lambda x: str(x[1]), reverse=True)`). -/
def insertByTsDesc (p : Url × String) : Ledger → Ledger
  | [] => [p]
  | q :: rest => if decide (q.2 < p.2) then p :: q :: rest else q :: insertByTsDesc p rest

def sortJobsDesc (jobs : Ledger) : Ledger :=
  jobs.foldr insertByTsDesc []

/-- Line 157, `json.dumps(sorted_jobs, indent=2, ensure_ascii=False)`:
rendered as one `"url": "timestamp"` line per entry.  String escaping and
the exact whitespace of `json.dumps` are abstracted; no claim depends on
the concrete serialization. -/
def encodePostedJobs (jobs : Ledger) : String :=
  "\x7b\n"
    ++ String.intercalate ",\n"
        ((sortJobsDesc jobs).map (fun p => "  \x22" ++ p.1 ++ "\x22: \x22" ++ p.2 ++ "\x22"))
    ++ "\n\x7d"

/-- Lines 120-177, `save_posted_jobs`: re-read the current files (treated as
empty when the GET fails, lines 137-141), rebuild the payload from every
file other than `posted_jobs.json` with its existing content plus the fresh
`posted_jobs.json` (lines 144-158), then PATCH.  Returns the success flag
and the resulting Gist document; every failure path returns `false` rather
than raising. -/
def savePostedJobs (env : SaveEnv) (doc : GistFiles) (jobs : Ledger) :
    Bool × GistFiles :=
  if !env.tokensSet then (false, doc)
  else
    let currentFiles := if env.getOk then doc else []
    let payload :=
      (currentFiles.filter (fun p => decide (p.1 ≠ "posted_jobs.json")))
        ++ [("posted_jobs.json", encodePostedJobs jobs)]
    if env.patchOk then (true, gistPatch doc payload) else (false, doc)

/-! ### Detail-page extraction (`scrape_job_detail`, lines 330-456) -/

/-- One element of the located content region, in document order: its tag
name (`p`, `li`, `div`, `h2`, ...) and its raw text content.  The sibling
walk of the source operates on this flattened sibling sequence. -/
structure Elem where
  name : String
  text : String
deriving DecidableEq, Repr

def isSpaceChar (c : Char) : Bool := c = ' ' || c = '\t' || c = '\n' || c = '\r'

/-- Collapse each maximal whitespace run to a single space
(`re.sub(r'\s+', ' ', text)`, line 226). -/
def collapseWs (cs : List Char) : List Char :=
  cs.foldr
    (fun c acc =>
      if isSpaceChar c then
        match acc with
        | ' ' :: _ => acc
        | _ => ' ' :: acc
      else c :: acc) []

def stripSpaces (cs : List Char) : List Char :=
  ((cs.dropWhile isSpaceChar).reverse.dropWhile isSpaceChar).reverse

/-- Lines 221-227, `clean_text`. -/
def cleanText (s : String) : String := ⟨stripSpaces (collapseWs s.data)⟩

/-- Python `text.split()`: whitespace-separated words, empties dropped. -/
def wordsOf (s : String) : List String :=
  (s.split isSpaceChar).filter (fun w => decide (w ≠ ""))

/-- Lines 318-325, `truncate_text`. -/
def truncateText (text : String) (maxWords : Nat) : String :=
  if text = "" then ""
  else
    let words := wordsOf text
    if words.length ≤ maxWords then text
    else String.intercalate " " (words.take maxWords) ++ "..."

def strToLower (s : String) : String := ⟨s.data.map Char.toLower⟩

/-- Lines 404-418: gather the cleaned texts of following `p`/`li`/`div`
siblings (longer than 15 characters, `li` prefixed with a bullet) until the
next `h2`-`h5` heading, stopping once 40 words were accumulated. -/
def collectSiblings : List Elem → List String → Nat → List String
  | [], parts, _ => parts
  | e :: rest, parts, wordCount =>
    if e.name = "h2" || e.name = "h3" || e.name = "h4" || e.name = "h5" then parts
    else
      let step :=
        if e.name = "p" || e.name = "li" || e.name = "div" then
          let t := cleanText e.text
          if t ≠ "" && t.length > 15 then
            ((if e.name = "li" then "• " ++ t else t) :: [], (wordsOf t).length)
          else ([], 0)
        else ([], 0)
      let parts2 := parts ++ step.1
      let wc2 := wordCount + step.2
      if wc2 ≥ 40 then parts2
      else collectSiblings rest parts2 wc2

/-- Lines 396-423: for each of the first 4 `p` elements of the region whose
cleaned text is nonempty and at most 100 characters, collect the following
siblings; emit a `(title, truncated text)` section when anything was
collected. -/
def buildSections : List Elem → Nat → List (String × String)
  | [], _ => []
  | e :: rest, count =>
    if count ≥ 4 then []
    else if e.name = "p" then
      let sectionTitle := cleanText e.text
      if sectionTitle = "" || sectionTitle.length > 100 then
        buildSections rest (count + 1)
      else
        let parts := collectSiblings rest [] 0
        let secs := buildSections rest (count + 1)
        if parts ≠ [] then
          (sectionTitle, truncateText (String.intercalate "\n" parts) 30) :: secs
        else secs
    else buildSections rest count

/-- Lines 426-434: fallback paragraphs — up to 4 `p`/`li` elements with
cleaned text longer than 30 characters whose lowercased first 20 characters
do not contain "apply". -/
def fallbackLoop : List Elem → List String → List String
  | [], acc => acc
  | e :: rest, acc =>
    if e.name = "p" || e.name = "li" then
      let t := cleanText e.text
      if t ≠ "" && t.length > 30 && !(strContains ⟨(strToLower t).data.take 20⟩ "apply") then
        let acc2 := acc ++ [(if e.name = "li" then "• " ++ t else t)]
        if acc2.length ≥ 4 then acc2 else fallbackLoop rest acc2
      else fallbackLoop rest acc
    else fallbackLoop rest acc

/-- Lines 374-438: the body sections produced for a content region.  When the
headed walk yields nothing and the fallback also yields nothing, the result
is the empty list — no placeholder is inserted here. -/
def descriptionSections (els : List Elem) : List (String × String) :=
  let secs := buildSections els 0
  if secs ≠ [] then secs
  else
    let paras := fallbackLoop els []
    if paras ≠ [] then
      [("ዋና ሀላፊነቶች / Key Responsibilities",
        truncateText (String.intercalate " " paras) 30)]
    else []

/-- Parsed detail page, at the granularity the extraction consumes: the text
of the title element when one was found (lines 341-342), the three labeled
fields as produced by the label scan of lines 345-372 (that scan is
abstracted to its resulting fields; no claim depends on it), and the
flattened element sequence of the located content region (lines 377-392; an
absent region is the empty sequence). -/
structure Page where
  titleText : Option String
  jobType : String
  location : String
  deadline : String
  contentEls : List Elem
deriving Repr

/-- Line 342: cleaned title text, or the fixed fallback title. -/
def extractTitle (titleText : Option String) : String :=
  match titleText with
  | some t => cleanText t
  | none => "የስራ ማስታወቂያ / Job Posting"

/-- Lines 330-456, `scrape_job_detail`: the detail-page GET of line 336 is a
single attempt (`fetch 0`); `raise_for_status` on a non-success status and
any network error land in the handler of line 454, which returns `None`.
On success the record of lines 442-452 is returned unconditionally —
including when `descriptionSections` is empty. -/
def scrapeJobDetail (u : Url) (fetch : Nat → Option Page) : Option JobRecord :=
  match fetch 0 with
  | none => none
  | some pg =>
    some { link := u
           title := extractTitle pg.titleText
           jtype := pg.jobType
           location := pg.location
           deadline := pg.deadline
           deadlineRaw := pg.deadline
           sections := descriptionSections pg.contentEls }

/-! ### Message description build in `post_job` (lines 550-558) -/

/-- Line 558: the fixed placeholder description used when a record has no
sections. -/
def placeholderDescription : String :=
  "📋 ተጨማሪ ዝርዝር ለማየት ከታች ያለውን ሊንክ ይጫኑ\n<i>See more details via link below</i>"

/-- Lines 550-558: the description text of the outgoing message — at most
two sections, or the fixed placeholder when the record has none. -/
def buildDescriptionText (sections : List (String × String)) : String :=
  if !sections.isEmpty then
    String.intercalate "\n\n"
      ((sections.take 2).map (fun p => "<b>📌 " ++ p.1 ++ "</b>\n" ++ p.2))
  else placeholderDescription

/-! ### Helper lemmas -/

lemma memLedger_eq_true_iff (u : Url) (l : Ledger) :
    memLedger u l = true ↔ u ∈ ledgerKeys l := by
  simp [memLedger]

lemma memLedger_append (u : Url) (l : Ledger) (p : Url × String) :
    memLedger u (l ++ [p]) = (memLedger u l || decide (u = p.1)) := by
  unfold memLedger ledgerKeys
  rw [List.map_append]
  by_cases h : u ∈ l.map Prod.fst
  · simp [h, List.mem_append]
  · by_cases h2 : u = p.1
    · simp [h, h2, List.mem_append]
    · simp [h, h2, List.mem_append]

lemma savePostedJob_fst_or_new (env : PostEnv) (L : Ledger) (u : Url) :
    ((savePostedJob env L u).1 || (savePostedJob env L u).2.1) = true := by
  unfold savePostedJob
  cases h1 : memLedger u L <;> simp [h1] <;>
    cases h2 : env.saveOk u 0 <;> simp [h2] <;>
      cases h3 : env.saveOk u 1 <;> simp [h3]

lemma postJob_fst (env : PostEnv) (L : Ledger) (j : JobRecord) :
    (postJob env L j).1 = env.sendOk j.link := by
  unfold postJob
  cases hs : env.sendOk j.link with
  | false => simp
  | true => simpa using savePostedJob_fst_or_new env L j.link

lemma runPostingLoop_results (env : PostEnv) (L : Ledger) (js : List JobRecord) :
    (runPostingLoop env L js).2 = js.map (fun j => (j.link, env.sendOk j.link)) := by
  induction js generalizing L with
  | nil => rfl
  | cons j rest ih => simp [runPostingLoop, ih, postJob_fst]

lemma savePostedJob_snd_mem (env : PostEnv) (L : Ledger) (u v : Url)
    (hsave : env.saveOk u 0 = true) :
    memLedger v (savePostedJob env L u).2.2 = (memLedger v L || decide (v = u)) := by
  unfold savePostedJob
  cases h1 : memLedger u L with
  | true =>
    simp only [h1, if_true]
    by_cases hv : v = u
    · subst hv; simp [h1]
    · simp [hv]
  | false => simp [h1, hsave, memLedger_append]

lemma postJob_mem (env : PostEnv) (L : Ledger) (j : JobRecord) (v : Url)
    (hsave : env.saveOk j.link 0 = true) :
    memLedger v (postJob env L j).2
      = (memLedger v L || (env.sendOk j.link && decide (v = j.link))) := by
  unfold postJob
  cases hs : env.sendOk j.link with
  | false => simp
  | true => simpa using savePostedJob_snd_mem env L j.link v hsave

lemma runPostingLoop_mem (env : PostEnv) (L : Ledger) (js : List JobRecord) (v : Url)
    (hsave : ∀ u n, env.saveOk u n = true) :
    memLedger v (runPostingLoop env L js).1
      = (memLedger v L || js.any (fun j => env.sendOk j.link && decide (v = j.link))) := by
  induction js generalizing L with
  | nil => simp [runPostingLoop]
  | cons j rest ih =>
    simp [runPostingLoop, ih, postJob_mem env L j v (hsave j.link 0), Bool.or_assoc]

lemma savePostedJob_commits_only (env : PostEnv) (L : Ledger) (u v : Url)
    (h : memLedger v (savePostedJob env L u).2.2 = true) :
    memLedger v L = true ∨ v = u := by
  unfold savePostedJob at h
  cases h1 : memLedger u L <;> simp [h1] at h
  · cases h2 : env.saveOk u 0 <;> simp [h2] at h
    · cases h3 : env.saveOk u 1 <;> simp [h3] at h
      · exact Or.inl h
      · rw [memLedger_append] at h
        rcases Bool.or_eq_true_iff.mp h with h4 | h4
        · exact Or.inl h4
        · exact Or.inr (of_decide_eq_true h4)
    · rw [memLedger_append] at h
      rcases Bool.or_eq_true_iff.mp h with h4 | h4
      · exact Or.inl h4
      · exact Or.inr (of_decide_eq_true h4)
  · exact Or.inl h

lemma runPostingLoop_commits_only (env : PostEnv) (L : Ledger) (js : List JobRecord)
    (v : Url) (h : memLedger v (runPostingLoop env L js).1 = true) :
    memLedger v L = true ∨ (env.sendOk v = true ∧ v ∈ js.map (fun j => j.link)) := by
  induction js generalizing L with
  | nil => exact Or.inl (by simpa [runPostingLoop] using h)
  | cons j rest ih =>
    have h' : memLedger v (runPostingLoop env (postJob env L j).2 rest).1 = true := by
      simpa [runPostingLoop] using h
    rcases ih _ h' with h2 | h2
    · unfold postJob at h2
      cases hs : env.sendOk j.link <;> simp [hs] at h2
      · exact Or.inl h2
      · rcases savePostedJob_commits_only env L j.link v h2 with h3 | h3
        · exact Or.inl h3
        · subst h3; exact Or.inr ⟨hs, by simp⟩
    · exact Or.inr ⟨h2.1, by simp [h2.2]⟩

lemma collectResults_map_link (details : Url → Option JobRecord) (cache fresh : Ledger)
    (completed : List Url)
    (hdet : ∀ v r, details v = some r → r.link = v) :
    (collectResults details cache fresh completed).map (fun r => r.link)
      = completed.filter (fun v => (details v).isSome && !(isJobPosted cache fresh v)) := by
  induction completed with
  | nil => rfl
  | cons v rest ih =>
    simp only [collectResults]
    cases hdv : details v with
    | none => simpa [List.filter_cons, hdv] using ih
    | some r =>
      have hl : r.link = v := hdet v r hdv
      cases hp : isJobPosted cache fresh v with
      | false => simp [List.filter_cons, hdv, hp, ih, hl]
      | true => simpa [List.filter_cons, hdv, hp] using ih

lemma dedup_aux_nodup (l acc : List Url) (hacc : acc.Nodup) :
    (l.foldl (fun acc u => if u ∈ acc then acc else acc ++ [u]) acc).Nodup := by
  induction l generalizing acc with
  | nil => simpa using hacc
  | cons u rest ih =>
    simp only [List.foldl_cons]
    by_cases h : u ∈ acc
    · rw [if_pos h]; exact ih acc hacc
    · rw [if_neg h]
      refine ih _ ?_
      rw [List.nodup_append]
      refine ⟨hacc, List.nodup_singleton u, ?_⟩
      intro a ha hau
      rw [List.mem_singleton] at hau
      exact h (hau ▸ ha)

lemma extractJobLinks_nodup (hrefs : List String) : (extractJobLinks hrefs).Nodup :=
  dedup_aux_nodup _ [] List.nodup_nil

lemma mem_newLinks (posted : Ledger) (links : List Url) (v : Url)
    (hv : v ∈ newLinks posted links) :
    normalizeUrl v ∉ (ledgerKeys posted).map normalizeUrl
      ∧ memLedger v posted = false := by
  unfold newLinks at hv
  rw [List.mem_filter] at hv
  obtain ⟨-, hpred⟩ := hv
  rw [Bool.and_eq_true] at hpred
  exact ⟨of_decide_eq_true hpred.1, by simpa using hpred.2⟩

lemma take_succ_of_get? {α : Type} (l : List α) (k : Nat) (x : α)
    (h : l.get? k = some x) :
    l.take (k + 1) = l.take k ++ [x] := by
  induction l generalizing k with
  | nil => simp at h
  | cons a rest ih =>
    cases k with
    | zero => simp at h; subst h; rfl
    | succ k =>
      simp only [List.get?] at h
      simp [List.take_succ_cons, ih k h]

/-! ### Claim C4: pruning window of the loaded view -/

/-- Claim C4: in the view returned by a successful ledger load, an entry
whose timestamp is 8 days before now is absent and an entry whose timestamp
is 6 days before now is present; the load leaves the stored document
unchanged (pruning is view-level only). -/
theorem c4_prune_window (now : Int) (cache : Option LedgerDoc) (doc : LedgerDoc)
    (u v : Url)
    (h8 : (u, TsVal.parsed (now - 8 * secondsPerDay)) ∈ doc)
    (h6 : (v, TsVal.parsed (now - 6 * secondsPerDay)) ∈ doc) :
    (u, TsVal.parsed (now - 8 * secondsPerDay)) ∉ (loadFromStore now cache doc).1.view
    ∧ (v, TsVal.parsed (now - 6 * secondsPerDay)) ∈ (loadFromStore now cache doc).1.view
    ∧ (loadFromStore now cache doc).2 = doc := by
  refine ⟨?_, ?_, rfl⟩
  · intro hmem
    have hkeep := (List.mem_filter.mp hmem).2
    simp only [keepEntry, secondsPerDay, decide_eq_true_eq] at hkeep
    omega
  · exact List.mem_filter.mpr ⟨h6, by
      simp only [keepEntry, secondsPerDay, decide_eq_true_eq]; omega⟩

theorem c4_prune_window_witness :
    ("https://geezjobs.com/job/1", TsVal.parsed (1000000 - 8 * secondsPerDay))
        ∉ (loadFromStore 1000000 none
            [("https://geezjobs.com/job/1", TsVal.parsed (1000000 - 8 * secondsPerDay)),
             ("https://geezjobs.com/job/2", TsVal.parsed (1000000 - 6 * secondsPerDay))]).1.view
    ∧ ("https://geezjobs.com/job/2", TsVal.parsed (1000000 - 6 * secondsPerDay))
        ∈ (loadFromStore 1000000 none
            [("https://geezjobs.com/job/1", TsVal.parsed (1000000 - 8 * secondsPerDay)),
             ("https://geezjobs.com/job/2", TsVal.parsed (1000000 - 6 * secondsPerDay))]).1.view
    ∧ (loadFromStore 1000000 none
            [("https://geezjobs.com/job/1", TsVal.parsed (1000000 - 8 * secondsPerDay)),
             ("https://geezjobs.com/job/2", TsVal.parsed (1000000 - 6 * secondsPerDay))]).2
        = [("https://geezjobs.com/job/1", TsVal.parsed (1000000 - 8 * secondsPerDay)),
           ("https://geezjobs.com/job/2", TsVal.parsed (1000000 - 6 * secondsPerDay))] :=
  c4_prune_window 1000000 none
    [("https://geezjobs.com/job/1", TsVal.parsed (1000000 - 8 * secondsPerDay)),
     ("https://geezjobs.com/job/2", TsVal.parsed (1000000 - 6 * secondsPerDay))]
    "https://geezjobs.com/job/1" "https://geezjobs.com/job/2"
    (by decide) (by decide)

/-! ### Claim C9: load fails soft -/

/-- Claim C9: when the Gist fetch fails (non-200 status, or a raised
network/parse error), the load returns the last successfully loaded snapshot
if one exists and the empty map otherwise, and leaves the cache untouched;
the embedded load is a total function — no failure path raises. -/
theorem c9_load_fails_soft (now : Int) (cache : Option LedgerDoc) (fetch : GistFetch)
    (hfail : (∃ c, fetch = GistFetch.badStatus c) ∨ fetch = GistFetch.raised) :
    (loadPostedJobs now cache fetch).view = cache.getD []
    ∧ (loadPostedJobs now cache fetch).cache = cache := by
  rcases hfail with ⟨c, rfl⟩ | rfl
  · exact ⟨rfl, rfl⟩
  · exact ⟨rfl, rfl⟩

theorem c9_load_fails_soft_witness :
    (loadPostedJobs 0 (some [("https://geezjobs.com/job/5", TsVal.parsed 0)])
        (GistFetch.badStatus 503)).view
      = (some [("https://geezjobs.com/job/5", TsVal.parsed 0)] : Option LedgerDoc).getD []
    ∧ (loadPostedJobs 0 (some [("https://geezjobs.com/job/5", TsVal.parsed 0)])
        (GistFetch.badStatus 503)).cache
      = some [("https://geezjobs.com/job/5", TsVal.parsed 0)] :=
  c9_load_fails_soft 0 (some [("https://geezjobs.com/job/5", TsVal.parsed 0)])
    (GistFetch.badStatus 503) (Or.inl ⟨503, rfl⟩)

/-! ### Claim C6: no retry on the detail fetch -/

def cex6page : Page :=
  { titleText := some "Title", jobType := "N/A", location := "N/A",
    deadline := "N/A", contentEls := [] }

/-- Fetch oracle whose first attempt fails and whose later attempts would
succeed. -/
def cex6fetch : Nat → Option Page := fun n => if n = 0 then none else some cex6page

/-- Claim C6 counterexample: the claimed bounded retry (up to 3 attempts)
would succeed against this oracle, but the extraction fails — the code makes
a single fetch attempt (line 336) and never consults attempts 1 and 2. -/
theorem c6_counterexample :
    scrapeJobDetail "https://geezjobs.com/job/9999" cex6fetch = none
    ∧ (cex6fetch 1).isSome = true
    ∧ (cex6fetch 2).isSome = true :=
  ⟨rfl, rfl, rfl⟩

/-- Claim C6 as amended: the detail-page fetch is a single attempt; whenever
that one GET fails, the extraction immediately returns a fetch failure,
irrespective of what later attempts would return — there is no retry. -/
theorem c6_single_fetch_attempt (u : Url) (fetch : Nat → Option Page)
    (h0 : fetch 0 = none) : scrapeJobDetail u fetch = none := by
  unfold scrapeJobDetail
  rw [h0]

theorem c6_single_fetch_attempt_witness :
    scrapeJobDetail "https://geezjobs.com/job/8888" cex6fetch = none :=
  c6_single_fetch_attempt "https://geezjobs.com/job/8888" cex6fetch rfl

/-! ### Claim C7: empty body sections and the placeholder -/

def cex7page : Page :=
  { titleText := none, jobType := "N/A", location := "N/A",
    deadline := "N/A", contentEls := [] }

/-- Claim C7 counterexample: a detail page with an empty content region
yields a successful extraction whose record has an empty list of body
sections — the extractor substitutes no placeholder. -/
theorem c7_counterexample :
    (scrapeJobDetail "https://geezjobs.com/job/7777" (fun _ => some cex7page)).isSome = true
    ∧ Option.map (fun r => r.sections)
        (scrapeJobDetail "https://geezjobs.com/job/7777" (fun _ => some cex7page))
      = some [] :=
  ⟨rfl, rfl⟩

/-- Claim C7 as amended: the Extractor may return a record with an empty
sections list; the fixed "no details available" placeholder is substituted
by `post_job` when it builds the outgoing message description for a record
whose sections list is empty. -/
theorem c7_placeholder_substituted_at_post (job : JobRecord)
    (h : job.sections = []) :
    buildDescriptionText job.sections = placeholderDescription := by
  rw [h]
  rfl

def cex7rec : JobRecord :=
  { link := "https://geezjobs.com/job/7777", title := "የስራ ማስታወቂያ / Job Posting",
    jtype := "N/A", location := "N/A", deadline := "N/A", deadlineRaw := "N/A",
    sections := [] }

theorem c7_placeholder_substituted_at_post_witness :
    buildDescriptionText cex7rec.sections = placeholderDescription :=
  c7_placeholder_substituted_at_post cex7rec rfl

/-! ### Shared concrete scenario inputs -/

/-- Detail outcome used in concrete scenarios: every fetch succeeds and the
record carries its own url as link. -/
def wDetails : Url → Option JobRecord :=
  fun v => some { link := v, title := "T", jtype := "N/A", location := "N/A",
                  deadline := "N/A", deadlineRaw := "N/A", sections := [] }

/-- Posting environment used in concrete scenarios: every send and every
save succeeds. -/
def wEnv : PostEnv :=
  { sendOk := fun _ => true, saveOk := fun _ _ => true,
    nowIso := "2026-10-12T00:00:00" }

/-! ### Claim C5: same-identity hrefs -/

def dupHrefs : List String :=
  ["https://geezjobs.com/job/1", "https://geezjobs.com/job/1?ref=x"]

/-- Claim C5 counterexample: two raw listing hrefs that normalize to the
same absolute URL, with an empty ledger, are both submitted to the pool —
the identity is fetched twice, not once: within-cycle deduplication
(line 484) is by exact URL string, and normalization (lines 494-498) is
applied only against ledger keys. -/
theorem c5_counterexample :
    ((submittedLinks [] dupHrefs).filter
        (fun v => decide (normalizeUrl v = "https://geezjobs.com/job/1"))).length = 2
    ∧ (2 : Nat) ≠ 1 :=
  ⟨by decide, by decide⟩

/-- Claim C5 as amended: within-cycle deduplication of Lister candidates is
by exact URL string, so distinct raw hrefs normalizing to the same absolute
URL are each fetched once; normalization is applied only when filtering
candidates against the ledger keys, so no submitted candidate is an exact
ledger key or normalizes to a normalized ledger key. -/
theorem c5_exact_dedup (hrefs : List String) (posted : Ledger) :
    (extractJobLinks hrefs).Nodup
    ∧ (submittedLinks posted hrefs).all
        (fun link => !(memLedger link posted)
          && !(decide (normalizeUrl link ∈ (ledgerKeys posted).map normalizeUrl))) = true := by
  refine ⟨extractJobLinks_nodup hrefs, ?_⟩
  rw [List.all_eq_true]
  intro link hlink
  have hnew : link ∈ newLinks posted (extractJobLinks hrefs) :=
    List.take_subset 12 _ hlink
  obtain ⟨hnorm, hmem⟩ := mem_newLinks posted _ link hnew
  simp [hmem, hnorm]

/-! ### Claim C10: send success counts as published even when the commit fails -/

/-- Claim C10: for a job whose identity is not yet in the ledger, when the
send succeeds but both Gist save attempts fail, `save_posted_job` returns
(success := false, was_new := true), `post_job` returns `save_success or
was_new` = true, the cycle counts the job as posted with no ledger change,
and in general `post_job` returns false exactly when the send failed. -/
theorem c10_send_success_counts_published (env env2 : PostEnv) (L L2 : Ledger)
    (j j2 : JobRecord)
    (hmem : memLedger j.link L = false)
    (hsend : env.sendOk j.link = true)
    (hs0 : env.saveOk j.link 0 = false)
    (hs1 : env.saveOk j.link 1 = false) :
    savePostedJob env L j.link = (false, true, L)
    ∧ postJob env L j = (true, L)
    ∧ jobPostingCycle env L [j] = (1, 0, L)
    ∧ ((postJob env2 L2 j2).1 = false ↔ env2.sendOk j2.link = false) := by
  have hsv : savePostedJob env L j.link = (false, true, L) := by
    unfold savePostedJob
    simp [hmem, hs0, hs1]
  have hpj : postJob env L j = (true, L) := by
    unfold postJob
    simp [hsend, hsv]
  refine ⟨hsv, hpj, ?_, ?_⟩
  · unfold jobPostingCycle runPostingLoop runPostingLoop
    simp [hpj]
  · rw [postJob_fst]

def c10job : JobRecord :=
  { link := "https://geezjobs.com/job/42", title := "T", jtype := "N/A",
    location := "N/A", deadline := "N/A", deadlineRaw := "N/A", sections := [] }

/-- Posting environment whose sends succeed and whose Gist saves always
fail. -/
def c10env : PostEnv :=
  { sendOk := fun _ => true, saveOk := fun _ _ => false,
    nowIso := "2026-10-12T00:00:00" }

theorem c10_send_success_counts_published_witness :
    savePostedJob c10env [] c10job.link = (false, true, [])
    ∧ postJob c10env [] c10job = (true, [])
    ∧ jobPostingCycle c10env [] [c10job] = (1, 0, [])
    ∧ ((postJob c10env [] c10job).1 = false ↔ c10env.sendOk c10job.link = false) :=
  c10_send_success_counts_published c10env c10env [] [] c10job c10job
    (by decide) rfl rfl rfl

/-! ### Claim C2: send order vs pool-completion order -/

def cHrefs : List String := ["/job/1000", "/job/2000", "/job/3000"]

def urlA : Url := "https://geezjobs.com/job/1000"

def urlB : Url := "https://geezjobs.com/job/2000"

def urlC : Url := "https://geezjobs.com/job/3000"

/-- Pool completion order `[C, A, B]` for Lister order `[A, B, C]`. -/
def cCompleted : List Url := [urlC, urlA, urlB]

/-- Claim C2 counterexample: with Lister output `[A, B, C]`, none in the
ledger, and the pool completing in order `[C, A, B]`, the posting loop sends
in `[C, A, B]` — pool-completion order, not the Lister order `[A, B, C]`
the claim requires. -/
theorem c2_counterexample :
    submittedLinks [] cHrefs = [urlA, urlB, urlC]
    ∧ (runPostingLoop wEnv [] (scrapeNewJobs [] [] wDetails cCompleted)).2.map Prod.fst
        = [urlC, urlA, urlB]
    ∧ ([urlC, urlA, urlB] : List Url) ≠ [urlA, urlB, urlC] :=
  ⟨by decide, by decide, by decide⟩

/-- Claim C2 as amended: the posting loop sends in exactly the pool
completion order restricted to successful extractions that pass the per-job
re-check — Lister order is not restored. -/
theorem c2_send_order_is_completion_order
    (posted fresh L0 : Ledger) (env : PostEnv) (details : Url → Option JobRecord)
    (completed : List Url)
    (hdet : ∀ v r, details v = some r → r.link = v) :
    (runPostingLoop env L0 (scrapeNewJobs posted fresh details completed)).2.map Prod.fst
      = completed.filter (fun v => (details v).isSome && !(isJobPosted posted fresh v)) := by
  rw [runPostingLoop_results]
  unfold scrapeNewJobs
  rw [List.map_map]
  exact collectResults_map_link details posted fresh completed hdet

theorem c2_send_order_is_completion_order_witness :
    (runPostingLoop wEnv [] (scrapeNewJobs [] [] wDetails cCompleted)).2.map Prod.fst
      = cCompleted.filter (fun v => (wDetails v).isSome && !(isJobPosted [] [] v)) :=
  c2_send_order_is_completion_order [] [] [] wEnv wDetails cCompleted
    (fun v r h => by injection h with h2; subst h2; rfl)

/-! ### Claim C8: save preserves co-located files -/

lemma lookupFile_append_of_some (l1 l2 : GistFiles) (f : String) (c : String)
    (h : lookupFile l1 f = some c) :
    lookupFile (l1 ++ l2) f = some c := by
  induction l1 with
  | nil => simp [lookupFile] at h
  | cons p rest ih =>
    by_cases hp : p.1 = f
    · simpa [lookupFile, hp] using h
    · rw [lookupFile, if_neg hp] at h
      simpa [lookupFile, hp] using ih h

lemma lookupFile_append_of_none (l1 l2 : GistFiles) (f : String)
    (h : lookupFile l1 f = none) :
    lookupFile (l1 ++ l2) f = lookupFile l2 f := by
  induction l1 with
  | nil => simp [lookupFile]
  | cons p rest ih =>
    by_cases hp : p.1 = f
    · rw [lookupFile, if_pos hp] at h
      exact absurd h (by simp)
    · rw [lookupFile, if_neg hp] at h
      simpa [lookupFile, hp] using ih h

lemma lookupFile_filter_of (doc : GistFiles) (q : String × String → Bool) (f : String)
    (hq : ∀ p : String × String, p.1 = f → q p = true) :
    lookupFile (doc.filter q) f = lookupFile doc f := by
  induction doc with
  | nil => rfl
  | cons p rest ih =>
    by_cases hp : p.1 = f
    · rw [List.filter_cons_of_pos (hq p hp)]
      rw [lookupFile, if_pos hp, lookupFile, if_pos hp]
    · cases hqp : q p with
      | true => rw [List.filter_cons_of_pos hqp, lookupFile, if_neg hp, lookupFile, if_neg hp, ih]
      | false => rw [List.filter_cons_of_neg (by simp [hqp]), lookupFile, if_neg hp, ih]

lemma lookupFile_filter_none (doc : GistFiles) (q : String × String → Bool) (f : String)
    (hq : ∀ p : String × String, q p = true → p.1 ≠ f) :
    lookupFile (doc.filter q) f = none := by
  induction doc with
  | nil => rfl
  | cons p rest ih =>
    cases hqp : q p with
    | true => rw [List.filter_cons_of_pos hqp, lookupFile, if_neg (hq p hqp), ih]
    | false => rw [List.filter_cons_of_neg (by simp [hqp]), ih]

lemma lookupFile_none_filter (doc : GistFiles) (q : String × String → Bool) (f : String)
    (h : lookupFile doc f = none) :
    lookupFile (doc.filter q) f = none := by
  induction doc with
  | nil => rfl
  | cons p rest ih =>
    by_cases hp : p.1 = f
    · rw [lookupFile, if_pos hp] at h
      exact absurd h (by simp)
    · rw [lookupFile, if_neg hp] at h
      cases hqp : q p with
      | true => rw [List.filter_cons_of_pos hqp, lookupFile, if_neg hp, ih h]
      | false => rw [List.filter_cons_of_neg (by simp [hqp]), ih h]

/-- Claim C8: a save overwrites only the `posted_jobs.json` entry of the
remote document — every other file keeps its existing content, whether or
not the pre-save GET succeeded — and the save returns false (it never
raises) when the tokens are missing or the PATCH fails. -/
theorem c8_save_preserves_other_files (env : SaveEnv) (doc : GistFiles)
    (jobs : Ledger) (f : String) (hf : f ≠ "posted_jobs.json") :
    lookupFile (savePostedJobs env doc jobs).2 f = lookupFile doc f
    ∧ ((savePostedJobs env doc jobs).1 = true →
        lookupFile (savePostedJobs env doc jobs).2 "posted_jobs.json"
          = some (encodePostedJobs jobs))
    ∧ ((env.tokensSet = false ∨ env.patchOk = false) →
        (savePostedJobs env doc jobs).1 = false) := by
  cases ht : env.tokensSet with
  | false => simp [savePostedJobs, ht]
  | true =>
    cases hp : env.patchOk with
    | false => simp [savePostedJobs, ht, hp]
    | true =>
      cases hg : env.getOk with
      | true =>
        have hcur : savePostedJobs env doc jobs
            = (true, gistPatch doc
                ((doc.filter (fun p => decide (p.1 ≠ "posted_jobs.json")))
                  ++ [("posted_jobs.json", encodePostedJobs jobs)])) := by
          simp [savePostedJobs, ht, hp, hg]
        rw [hcur]
        have hfiltf : lookupFile (doc.filter (fun p => decide (p.1 ≠ "posted_jobs.json"))) f
            = lookupFile doc f :=
          lookupFile_filter_of _ _ _ (fun p hpf => by simp [hpf, hf])
        refine ⟨?_, fun _ => ?_, by simp [ht, hp]⟩
        · unfold gistPatch
          cases hdoc : lookupFile doc f with
          | some c =>
            exact lookupFile_append_of_some _ _ _ c
              (lookupFile_append_of_some _ _ _ c (hfiltf.trans hdoc))
          | none =>
            have h1 : lookupFile (doc.filter (fun p => decide (p.1 ≠ "posted_jobs.json"))
                ++ [("posted_jobs.json", encodePostedJobs jobs)]) f = none := by
              rw [lookupFile_append_of_none _ _ _ (hfiltf.trans hdoc), lookupFile,
                if_neg (fun h => hf h.symm), lookupFile]
            rw [lookupFile_append_of_none _ _ _ h1, lookupFile_none_filter _ _ _ hdoc]
        · unfold gistPatch
          have hfiltpj : lookupFile (doc.filter (fun p => decide (p.1 ≠ "posted_jobs.json")))
              "posted_jobs.json" = none :=
            lookupFile_filter_none _ _ _ (fun p hqp => by simpa using hqp)
          have hpaypj : lookupFile (doc.filter (fun p => decide (p.1 ≠ "posted_jobs.json"))
              ++ [("posted_jobs.json", encodePostedJobs jobs)]) "posted_jobs.json"
              = some (encodePostedJobs jobs) := by
            rw [lookupFile_append_of_none _ _ _ hfiltpj, lookupFile, if_pos rfl]
          exact lookupFile_append_of_some _ _ _ _ hpaypj
      | false =>
        have hcur : savePostedJobs env doc jobs
            = (true, gistPatch doc [("posted_jobs.json", encodePostedJobs jobs)]) := by
          simp [savePostedJobs, ht, hp, hg]
        rw [hcur]
        have hpay : lookupFile [("posted_jobs.json", encodePostedJobs jobs)] f = none := by
          rw [lookupFile, if_neg (fun h => hf h.symm), lookupFile]
        refine ⟨?_, fun _ => ?_, by simp [ht, hp]⟩
        · unfold gistPatch
          rw [lookupFile_append_of_none _ _ _ hpay]
          exact lookupFile_filter_of _ _ _ (fun p hpf => by rw [hpf, hpay]; rfl)
        · unfold gistPatch
          have hpaypj : lookupFile [("posted_jobs.json", encodePostedJobs jobs)]
              "posted_jobs.json" = some (encodePostedJobs jobs) := by
            rw [lookupFile, if_pos rfl]
          exact lookupFile_append_of_some _ _ _ _ hpaypj

/-- Save environment in which every remote call succeeds. -/
def c8env : SaveEnv := { tokensSet := true, getOk := true, patchOk := true }

def c8doc : GistFiles := [("readme.md", "hello"), ("posted_jobs.json", "old")]

def c8jobs : Ledger := [("https://geezjobs.com/job/7", "2026-10-12T00:00:00")]

theorem c8_save_preserves_other_files_witness :
    lookupFile (savePostedJobs c8env c8doc c8jobs).2 "readme.md"
        = lookupFile c8doc "readme.md"
    ∧ ((savePostedJobs c8env c8doc c8jobs).1 = true →
        lookupFile (savePostedJobs c8env c8doc c8jobs).2 "posted_jobs.json"
          = some (encodePostedJobs c8jobs))
    ∧ ((c8env.tokensSet = false ∨ c8env.patchOk = false) →
        (savePostedJobs c8env c8doc c8jobs).1 = false) :=
  c8_save_preserves_other_files c8env c8doc c8jobs "readme.md" (by decide)

/-! ### Claim C1: identities already in the cycle-start ledger are never sent -/

/-- Claim C1: for an identity `u` present in the ledger snapshot loaded at
cycle start, a full cycle — `scrape_new_jobs` followed by the posting
loop — never invokes `post_job` for it: neither `u` itself nor any
candidate normalizing to the same identity appears among the loop's send
attempts (the candidate filter removes them before the pool runs, and the
per-job re-check removes any survivor). -/
theorem c1_posted_identity_never_sent
    (posted fresh L0 : Ledger) (hrefs : List String) (env : PostEnv)
    (details : Url → Option JobRecord) (completed : List Url) (u : Url)
    (hcomp : ∀ v ∈ completed, v ∈ submittedLinks posted hrefs)
    (hdet : ∀ v r, details v = some r → r.link = v)
    (hu : memLedger u posted = true) :
    u ∉ ((runPostingLoop env L0 (scrapeNewJobs posted fresh details completed)).2.map
          Prod.fst)
    ∧ normalizeUrl u ∉
        (((runPostingLoop env L0 (scrapeNewJobs posted fresh details completed)).2.map
            Prod.fst).map normalizeUrl) := by
  have hsends : (runPostingLoop env L0
        (scrapeNewJobs posted fresh details completed)).2.map Prod.fst
      = completed.filter (fun v => (details v).isSome && !(isJobPosted posted fresh v)) := by
    rw [runPostingLoop_results]
    unfold scrapeNewJobs
    rw [List.map_map]
    exact collectResults_map_link details posted fresh completed hdet
  have hnorm : normalizeUrl u ∉
      (((runPostingLoop env L0 (scrapeNewJobs posted fresh details completed)).2.map
          Prod.fst).map normalizeUrl) := by
    rw [hsends]
    intro hmem
    obtain ⟨v, hv, hnv⟩ := List.mem_map.mp hmem
    have hvc : v ∈ completed := List.mem_of_mem_filter hv
    have hvnew : v ∈ newLinks posted (extractJobLinks hrefs) :=
      List.take_subset 12 _ (hcomp v hvc)
    have hvnorm := (mem_newLinks posted _ v hvnew).1
    exact hvnorm (hnv ▸ List.mem_map_of_mem normalizeUrl (memLedger_eq_true_iff u posted |>.mp hu))
  refine ⟨fun h => hnorm (List.mem_map_of_mem normalizeUrl h), hnorm⟩

def wPosted : Ledger := [("https://geezjobs.com/job/11111", "2026-10-01T00:00:00")]

def wHrefs : List String := ["/job/11111", "/job/22222"]

def wCompleted : List Url := ["https://geezjobs.com/job/22222"]

theorem c1_posted_identity_never_sent_witness :
    "https://geezjobs.com/job/11111"
        ∉ ((runPostingLoop wEnv [] (scrapeNewJobs wPosted [] wDetails wCompleted)).2.map
            Prod.fst)
    ∧ normalizeUrl "https://geezjobs.com/job/11111"
        ∉ (((runPostingLoop wEnv [] (scrapeNewJobs wPosted [] wDetails wCompleted)).2.map
            Prod.fst).map normalizeUrl) :=
  c1_posted_identity_never_sent wPosted [] [] wHrefs wEnv wDetails wCompleted
    "https://geezjobs.com/job/11111"
    (by decide) (fun v r h => by injection h with h2; subst h2; rfl) (by decide)

/-! ### Claim C3: partial-failure accounting of the posting loop -/

/-- Claim C3: when the sink send fails exactly on record `k` (0-indexed)
of the extracted batch and the ledger saves succeed, then — at the point
just after record `k` was processed — the records before `k` are committed
to the ledger and the records from `k` on are not; record `k` is counted as
failed; every record of the batch is still attempted, in order; and an
identity enters the ledger only when its send was confirmed. -/
theorem c3_partial_failure_accounting
    (env : PostEnv) (L0 : Ledger) (jobs : List JobRecord) (k : Nat) (jk : JobRecord)
    (hsave : ∀ u n, env.saveOk u n = true)
    (hnodup : (jobs.map (fun j => j.link)).Nodup)
    (hfresh : jobs.all (fun j => !(memLedger j.link L0)) = true)
    (hk : jobs.get? k = some jk)
    (hsendk : env.sendOk jk.link = false)
    (hsendlt : (jobs.take k).all (fun j => env.sendOk j.link) = true) :
    (runPostingLoop env L0 jobs).2 = jobs.map (fun j => (j.link, env.sendOk j.link))
    ∧ (runPostingLoop env L0 jobs).2.get? k = some (jk.link, false)
    ∧ (jobs.take k).all
        (fun j => memLedger j.link (runPostingLoop env L0 (jobs.take (k + 1))).1) = true
    ∧ (jobs.drop k).all
        (fun j => !(memLedger j.link (runPostingLoop env L0 (jobs.take (k + 1))).1)) = true
    ∧ (ledgerKeys (runPostingLoop env L0 jobs).1).all
        (fun v => memLedger v L0 || env.sendOk v) = true := by
  have htake : jobs.take (k + 1) = jobs.take k ++ [jk] := take_succ_of_get? jobs k jk hk
  have hsendlt' : ∀ j ∈ jobs.take k, env.sendOk j.link = true := by
    intro j hj
    exact List.all_eq_true.mp hsendlt j hj
  have hfresh' : ∀ j ∈ jobs, memLedger j.link L0 = false := by
    intro j hj
    simpa using List.all_eq_true.mp hfresh j hj
  have hsplitmap :
      (jobs.take k).map (fun j => j.link) ++ (jobs.drop k).map (fun j => j.link)
        = jobs.map (fun j => j.link) := by
    rw [← List.map_append, List.take_append_drop]
  have hnd2 : ((jobs.take k).map (fun j => j.link)
      ++ (jobs.drop k).map (fun j => j.link)).Nodup := by
    rw [hsplitmap]; exact hnodup
  have hdisj := (List.nodup_append.mp hnd2).2.2
  refine ⟨runPostingLoop_results env L0 jobs, ?_, ?_, ?_, ?_⟩
  · rw [runPostingLoop_results, List.get?_map, hk]
    simp [hsendk]
  · rw [List.all_eq_true]
    intro j hj
    show memLedger j.link (runPostingLoop env L0 (jobs.take (k + 1))).1 = true
    rw [runPostingLoop_mem env L0 _ j.link hsave]
    have hany : (jobs.take (k + 1)).any
        (fun j' => env.sendOk j'.link && decide (j.link = j'.link)) = true := by
      rw [List.any_eq_true]
      refine ⟨j, by rw [htake]; exact List.mem_append_left _ hj, ?_⟩
      simp [hsendlt' j hj]
    rw [hany, Bool.or_true]
  · rw [List.all_eq_true]
    intro j hj
    show (!(memLedger j.link (runPostingLoop env L0 (jobs.take (k + 1))).1)) = true
    rw [Bool.not_eq_true']
    rw [runPostingLoop_mem env L0 _ j.link hsave]
    have hjl : j.link ∈ (jobs.drop k).map (fun j => j.link) :=
      List.mem_map_of_mem _ hj
    have h1 : memLedger j.link L0 = false := hfresh' j (List.drop_subset _ _ hj)
    have h2 : (jobs.take (k + 1)).any
        (fun j' => env.sendOk j'.link && decide (j.link = j'.link)) = false := by
      refine Bool.eq_false_iff.mpr ?_
      intro hcontra
      rw [List.any_eq_true] at hcontra
      obtain ⟨j', hj', hpj'⟩ := hcontra
      rw [Bool.and_eq_true] at hpj'
      have heq : j.link = j'.link := of_decide_eq_true hpj'.2
      rw [htake] at hj'
      rcases List.mem_append.mp hj' with hj' | hj'
      · exact hdisj (List.mem_map_of_mem _ hj') (heq ▸ hjl)
      · rw [List.mem_singleton] at hj'
        subst hj'
        rw [hsendk] at hpj'
        exact Bool.false_ne_true hpj'.1
    rw [h1, h2]
    rfl
  · rw [List.all_eq_true]
    intro v hv
    show (memLedger v L0 || env.sendOk v) = true
    have hvmem : memLedger v (runPostingLoop env L0 jobs).1 = true := by
      rw [memLedger_eq_true_iff]; exact hv
    rcases runPostingLoop_commits_only env L0 jobs v hvmem with h | h
    · rw [h, Bool.true_or]
    · rw [h.1, Bool.or_true]

def c3jobA : JobRecord :=
  { link := "https://geezjobs.com/job/201", title := "A", jtype := "N/A",
    location := "N/A", deadline := "N/A", deadlineRaw := "N/A", sections := [] }

def c3jobB : JobRecord :=
  { link := "https://geezjobs.com/job/202", title := "B", jtype := "N/A",
    location := "N/A", deadline := "N/A", deadlineRaw := "N/A", sections := [] }

def c3jobC : JobRecord :=
  { link := "https://geezjobs.com/job/203", title := "C", jtype := "N/A",
    location := "N/A", deadline := "N/A", deadlineRaw := "N/A", sections := [] }

def c3jobs : List JobRecord := [c3jobA, c3jobB, c3jobC]

/-- Posting environment in which every save succeeds and exactly the send
for job B fails. -/
def c3env : PostEnv :=
  { sendOk := fun u => decide (u ≠ "https://geezjobs.com/job/202"),
    saveOk := fun _ _ => true, nowIso := "2026-10-12T00:00:00" }

theorem c3_partial_failure_accounting_witness :
    (runPostingLoop c3env [] c3jobs).2
        = c3jobs.map (fun j => (j.link, c3env.sendOk j.link))
    ∧ (runPostingLoop c3env [] c3jobs).2.get? 1 = some (c3jobB.link, false)
    ∧ (c3jobs.take 1).all
        (fun j => memLedger j.link (runPostingLoop c3env [] (c3jobs.take 2)).1) = true
    ∧ (c3jobs.drop 1).all
        (fun j => !(memLedger j.link (runPostingLoop c3env [] (c3jobs.take 2)).1)) = true
    ∧ (ledgerKeys (runPostingLoop c3env [] c3jobs).1).all
        (fun v => memLedger v [] || c3env.sendOk v) = true :=
  c3_partial_failure_accounting c3env [] c3jobs 1 c3jobB
    (fun _ _ => rfl) (by decide) (by decide) rfl (by decide) (by decide)

end JobBot
